import Mathlib

set_option autoImplicit false

/-!
Shallow embedding of the bartdeboer/cfg configuration-binding package.

The embedding models the value-level behaviour of the package:

* `Unmarshal` — `cfg.Unmarshal`/`cfg.UnmarshalKey`: snapshot the record,
  decode the config store onto it, then merge the snapshot back with
  `mergo.MergeWithOverwrite` (non-zero snapshot fields win).
* `scanColl` / `collectionHook` — the persistent pre-run hook installed by
  `BindCollectionItem` / `BindPersistentFlagsCollection`: resolve the
  selector via `GetString`, scan the collection for the first element whose
  identifying key (a string, asserted by `val.(string)`) equals the
  selector, decode it and merge the snapshot back.
* `buildRunChain` / `dispatchEvents` — the `PersistentPreRunE` closure
  installed by `RegisterPersistentPreRunHookE`: walk from the dispatched
  command to the root collecting registered hooks, then run them reversed
  (root-to-leaf).
* `invokeHelp` — the help wrapper installed by `bindCFlagsPersistent` /
  `RunPersistentPreRunOnHelp`, which calls the plain `PersistentPreRun`
  field (never assigned by the package).
* `loadConfig` on `OnceState` — the `sync.Once`-guarded config loader.

Go struct fields of the supported primitive kinds are modelled by `Val`
(bool, int, string; the float64 case is structurally identical).  A record
is its flat field list in declaration order; the config store is a partial
map from field keys to values.  Decoding follows the external collaborator
contract stated by the package's dependencies: fields present in the source
map are written (failing on field-kind mismatch), absent fields keep their
current value.
-/

namespace Cfg

/-- A primitive Go value of one of the flag-supported kinds. -/
inductive Val where
  | vbool : Bool → Val
  | vint : Int → Val
  | vstr : String → Val
deriving DecidableEq, Repr

/-- Go/mergo zero-value test: `false`, `0`, `""`. -/
def Val.isZero : Val → Bool
  | Val.vbool b => !b
  | Val.vint n => n == 0
  | Val.vstr _s => _s == ""

/-- The kind (Go reflect.Kind) of a value. -/
inductive Kind where
  | kbool
  | kint
  | kstr
deriving DecidableEq, Repr

def Val.kind : Val → Kind
  | Val.vbool _ => Kind.kbool
  | Val.vint _ => Kind.kint
  | Val.vstr _ => Kind.kstr

/-- A bindable record: its exported fields in declaration order. -/
abbrev Record := List (String × Val)

/-- The loaded config store, keyed by field name (viper's map). -/
abbrev Store := String → Option Val

/-- Decoding one field from a source map (mapstructure semantics, per the
collaborator contract): a value present in the source overwrites the field,
failing on field-kind mismatch; an absent key keeps the current value. -/
def decodeStoreField (cur : Val) (c : Option Val) : Except Unit Val :=
  match c with
  | none => Except.ok cur
  | some w => if w.kind = cur.kind then Except.ok w else Except.error ()

/-- Decoding a source map onto a whole record, field by field
(`viper.Unmarshal` / `mapstructure.Decode`). -/
def decodeStore (st : Store) : Record → Except Unit Record
  | [] => Except.ok []
  | f :: rest =>
    match decodeStoreField f.snd (st f.fst), decodeStore st rest with
    | Except.ok w, Except.ok tail => Except.ok ((f.fst, w) :: tail)
    | _, _ => Except.error ()

/-- `mergo.MergeWithOverwrite(dst, src)` at one field: a non-zero `src`
field overwrites `dst`; a zero `src` field leaves `dst` in place. -/
def mergeField (dst src : Val) : Val :=
  if src.isZero then dst else src

/-- `mergo.MergeWithOverwrite(dst, src)` on whole records of the same
shape, field by field. -/
def mergeRecords (dst src : Record) : Record :=
  List.zipWith (fun d s => (d.fst, mergeField d.snd s.snd)) dst src

/-- `cfg.Unmarshal` (and `cfg.UnmarshalKey`, whose key-scoped sub-store is
the `st` argument): snapshot the flag-mutated record, decode the store onto
it, then merge the snapshot back so non-zero snapshot fields win. -/
def Unmarshal (st : Store) (r : Record) : Except Unit Record :=
  match decodeStore st r with
  | Except.error _e => Except.error _e
  | Except.ok d => Except.ok (mergeRecords d r)

/-! ## Collection selection (`BindCollectionItem` / `BindPersistentFlagsCollection`) -/

/-- One collection element: an open map from field keys to values. -/
abbrev Elem := List (String × Val)

/-- Key lookup in a collection element (the Go map index `coll[i][idField]`). -/
def lookupE (e : Elem) (k : String) : Option Val :=
  (e.find? (fun f => f.fst == k)).map Prod.snd

/-- `viper.GetString` on the store: the value at the key rendered as a
string (`cast.ToString`), the empty string when the key is absent. -/
def getStringStore (st : Store) (k : String) : String :=
  match st k with
  | some (Val.vstr s) => s
  | some (Val.vint n) => toString n
  | some (Val.vbool b) => if b then "true" else "false"
  | none => ""

/-- Default of the `idField` option: `"name"` when unset
(`BindPersistentFlagsCollection` hardcodes `"name"`). -/
def resolveIdField (o : String) : String :=
  if o == "" then "name" else o

/-- Outcome of one run of the collection hook on the target record. -/
inductive HookOut where
  /-- Normal return; carries the record's final field values. -/
  | ok : Record → HookOut
  /-- `mapstructure.Decode` failed; its error is returned. -/
  | decodeErr : HookOut
  /-- The unchecked type assertion `val.(string)` failed: runtime panic. -/
  | panicNonString : HookOut
deriving DecidableEq, Repr

/-- The scan loop of the collection hook: walk the collection in order; for
each element whose identifying key is present, assert it is a string
(panicking otherwise) and compare it with the selector value; on the first
match decode the element onto the record and merge the snapshot back; when
no element matches return the record unchanged. -/
def scanColl (idF sel : String) (r : Record) : List Elem → HookOut
  | [] => HookOut.ok r
  | e :: rest =>
    match lookupE e idF with
    | none => scanColl idF sel r rest
    | some (Val.vstr s) =>
      if s == sel then
        match decodeStore (fun k => lookupE e k) r with
        | Except.error _ => HookOut.decodeErr
        | Except.ok d => HookOut.ok (mergeRecords d r)
      else scanColl idF sel r rest
    | some _ => HookOut.panicNonString

/-- The persistent pre-run hook body of `BindCollectionItem` with an
explicit collection: resolve the selector value with `GetString` directly
from the store, then scan the collection. -/
def collectionHook (st : Store) (idFieldOpt selF : String) (coll : List Elem)
    (r : Record) : HookOut :=
  scanColl (resolveIdField idFieldOpt) (getStringStore st selF) r coll

/-- An element the scan loop passes over: its identifying key is absent, or
holds a string different from the selector value. -/
def skipsElem (idF sel : String) (e : Elem) : Prop :=
  lookupE e idF = none ∨ ∃ s, lookupE e idF = some (Val.vstr s) ∧ s ≠ sel

/-! ## Hook chain (`RegisterPersistentPreRunHookE`) -/

/-- The global registration list `persistentPreRunHooks`: pairs of command
id and hook id, in registration order. -/
abbrev HookRegs := List (Nat × Nat)

/-- The hooks registered for one command, in registration order. -/
def hooksAt (regs : HookRegs) (c : Nat) : List Nat :=
  (regs.filter (fun rg => rg.fst == c)).map Prod.snd

/-- The `runChain` built by the `PersistentPreRunE` closure: walk the
command chain from the dispatched command up to the root (the argument is
the path in target-to-root order) and collect every registered hook of each
visited command. -/
def buildRunChain (regs : HookRegs) : List Nat → List Nat
  | [] => []
  | p :: ps => hooksAt regs p ++ buildRunChain regs ps

/-- The hook sequence actually executed by the closure for a dispatch whose
root-to-target command path is `path`: the run chain (built target-to-root)
is run in reverse, i.e. parent before child. -/
def dispatchHooks (regs : HookRegs) (path : List Nat) : List Nat :=
  (buildRunChain regs path.reverse).reverse

/-- An observable event of a dispatch. -/
inductive Event where
  | hookEv : Nat → Event
  | runEv : Nat → Event
deriving DecidableEq, Repr

/-- Modelled from the spec: the external command-tree collaborator invokes
the dispatched node's persistent pre-run hook slot before the node's own
run logic, so a dispatch to the last node of `path` emits the executed hook
chain followed by that node's run. -/
def dispatchEvents (regs : HookRegs) (path : List Nat) : List Event :=
  (dispatchHooks regs path).map Event.hookEv ++ [Event.runEv (path.getLastD 0)]

/-! ## Help wrapper (`bindCFlagsPersistent` / `RunPersistentPreRunOnHelp`) -/

/-- The slice of cobra command state the help wrapper touches. -/
structure CobraCmd where
  /-- Hook closures registered through `RegisterPersistentPreRunHookE`
  (stored in the global list and run by the `PersistentPreRunE` field). -/
  persistentPreRunEHooks : List Nat
  /-- The plain `PersistentPreRun` field (`nil` unless someone assigns it;
  this package never does). -/
  persistentPreRunField : Option Nat
  /-- Whether `SetHelpFunc` has installed the wrapping help function. -/
  helpWrapped : Bool
deriving DecidableEq, Repr

/-- A freshly constructed command: no hooks, `nil` fields, default help. -/
def freshCmd : CobraCmd :=
  { persistentPreRunEHooks := [], persistentPreRunField := none, helpWrapped := false }

/-- `RegisterPersistentPreRunHookE c h`: append the hook to the global
registration list (and install the `PersistentPreRunE` closure). -/
def registerPersistentPreRunHookE (c : CobraCmd) (h : Nat) : CobraCmd :=
  { c with persistentPreRunEHooks := c.persistentPreRunEHooks ++ [h] }

/-- `bindCFlagsPersistent`: register the resolve-and-refresh hook via
`RegisterPersistentPreRunHookE`, then wrap the help function so that it
first calls the command's plain `PersistentPreRun` field. -/
def bindCFlagsPersistent (c : CobraCmd) (h : Nat) : CobraCmd :=
  { registerPersistentPreRunHookE c h with helpWrapped := true }

/-- What a help request does. -/
inductive HelpOutcome where
  /-- The unwrapped default help: print help text only. -/
  | helpTextOnly : HelpOutcome
  /-- The wrapper called the plain `PersistentPreRun` field while it was
  `nil`: calling a nil Go function value panics. -/
  | panicNilFuncCall : HelpOutcome
  /-- The wrapper ran the plain `PersistentPreRun` field, then help text. -/
  | ranFieldThenHelp : Nat → HelpOutcome
deriving DecidableEq, Repr

/-- Requesting help on a command: the installed wrapper invokes
`c.PersistentPreRun(cmd, args)` — the plain field, not the registered
`PersistentPreRunE` closure — and then the original help function. -/
def invokeHelp (c : CobraCmd) : HelpOutcome :=
  if c.helpWrapped then
    match c.persistentPreRunField with
    | none => HelpOutcome.panicNilFuncCall
    | some f => HelpOutcome.ranFieldThenHelp f
  else HelpOutcome.helpTextOnly

/-! ## Process-wide config loading (`loadConfig` / `sync.Once`) -/

/-- One side effect of the `ConfigLoader` body. -/
inductive LoadAction where
  | discoverExecName : LoadAction
  | registerSearchPaths : LoadAction
  | autoBindEnv : LoadAction
  | readConfigFile : LoadAction
deriving DecidableEq, Repr

/-- The actions `ConfigLoader` performs, in order: executable-name
discovery, search-path registration, `AutomaticEnv`, `ReadInConfig`. -/
def configLoaderActions : List LoadAction :=
  [LoadAction.discoverExecName, LoadAction.registerSearchPaths,
   LoadAction.autoBindEnv, LoadAction.readConfigFile]

/-- The `sync.Once` cell plus the log of loader actions performed so far. -/
structure OnceState where
  didRun : Bool
  log : List LoadAction
deriving DecidableEq, Repr

/-- Process start: the once-cell untriggered, nothing performed. -/
def freshOnce : OnceState :=
  { didRun := false, log := [] }

/-- `loadConfig()`: `once.Do(ConfigLoader)` — run the loader body and mark
the cell on the first call, do nothing afterwards. -/
def loadConfig (s : OnceState) : OnceState :=
  if s.didRun then s else { didRun := true, log := s.log ++ configLoaderActions }

/-- The public entry points that begin with `loadConfig()`. -/
inductive PublicOp where
  | get
  | getInt
  | getString
  | readInConfig
  | unmarshal
  | unmarshalKey
deriving DecidableEq, Repr

/-- The loader effect of one public call: every one of the six entry points
invokes `loadConfig()` first. -/
def opLoaderEffect : PublicOp → OnceState → OnceState
  | PublicOp.get, s => loadConfig s
  | PublicOp.getInt, s => loadConfig s
  | PublicOp.getString, s => loadConfig s
  | PublicOp.readInConfig, s => loadConfig s
  | PublicOp.unmarshal, s => loadConfig s
  | PublicOp.unmarshalKey, s => loadConfig s

/-- The loader state after a sequence of public calls. -/
def runOps (s : OnceState) (ops : List PublicOp) : OnceState :=
  ops.foldl (fun s op => opLoaderEffect op s) s

/-! ## Helper lemmas about decoding and merging -/

theorem decodeStoreField_some_ok {v w u : Val}
    (h : decodeStoreField v (some w) = Except.ok u) :
    u = w ∧ w.kind = v.kind := by
  simp only [decodeStoreField] at h
  by_cases hk : w.kind = v.kind
  · rw [if_pos hk] at h
    exact ⟨(Except.ok.inj h).symm, hk⟩
  · rw [if_neg hk] at h
    exact absurd h (by simp)

theorem decodeStore_cons_ok {st : Store} {f : String × Val} {rest d : Record}
    (h : decodeStore st (f :: rest) = Except.ok d) :
    ∃ w tail, decodeStoreField f.snd (st f.fst) = Except.ok w ∧
      decodeStore st rest = Except.ok tail ∧ d = (f.fst, w) :: tail := by
  cases hw : decodeStoreField f.snd (st f.fst) with
  | error e => simp [decodeStore, hw] at h
  | ok w =>
    cases ht : decodeStore st rest with
    | error e => simp [decodeStore, hw, ht] at h
    | ok tail =>
      simp only [decodeStore, hw, ht] at h
      exact ⟨w, tail, rfl, rfl, (Except.ok.inj h).symm⟩

theorem decodeStore_length {st : Store} :
    ∀ {r d : Record}, decodeStore st r = Except.ok d → d.length = r.length := by
  intro r
  induction r with
  | nil =>
    intro d h
    simp only [decodeStore, Except.ok.injEq] at h
    simp [← h]
  | cons f rest ih =>
    intro d h
    obtain ⟨w, tail, _hw, ht, rfl⟩ := decodeStore_cons_ok h
    simp [ih ht]

theorem decodeStore_get {st : Store} :
    ∀ {r d : Record}, decodeStore st r = Except.ok d →
      ∀ i (h1 : i < r.length) (h2 : i < d.length),
        (d.get ⟨i, h2⟩).fst = (r.get ⟨i, h1⟩).fst ∧
        decodeStoreField (r.get ⟨i, h1⟩).snd (st (r.get ⟨i, h1⟩).fst) =
          Except.ok (d.get ⟨i, h2⟩).snd := by
  intro r
  induction r with
  | nil => intro d h i h1 h2; exact absurd h1 (Nat.not_lt_zero i)
  | cons f rest ih =>
    intro d h i h1 h2
    obtain ⟨w, tail, hw, ht, rfl⟩ := decodeStore_cons_ok h
    cases i with
    | zero => exact ⟨rfl, hw⟩
    | succ j =>
      exact ih ht j (Nat.lt_of_succ_lt_succ h1) (Nat.lt_of_succ_lt_succ h2)

theorem mergeRecords_length (d r : Record) :
    (mergeRecords d r).length = min d.length r.length := by
  simp [mergeRecords]

theorem mergeRecords_get :
    ∀ (d r : Record) i (h1 : i < d.length) (h2 : i < r.length)
      (h3 : i < (mergeRecords d r).length),
      (mergeRecords d r).get ⟨i, h3⟩ =
        ((d.get ⟨i, h1⟩).fst, mergeField (d.get ⟨i, h1⟩).snd (r.get ⟨i, h2⟩).snd) := by
  intro d
  induction d with
  | nil => intro r i h1; exact absurd h1 (Nat.not_lt_zero i)
  | cons x xs ih =>
    intro r i h1 h2 h3
    cases r with
    | nil => exact absurd h2 (Nat.not_lt_zero i)
    | cons y ys =>
      cases i with
      | zero => rfl
      | succ j =>
        exact ih ys j (Nat.lt_of_succ_lt_succ h1) (Nat.lt_of_succ_lt_succ h2)
          (Nat.lt_of_succ_lt_succ h3)

theorem Unmarshal_ok_parts {st : Store} {r r2 : Record}
    (h : Unmarshal st r = Except.ok r2) :
    ∃ d, decodeStore st r = Except.ok d ∧ r2 = mergeRecords d r := by
  revert h
  unfold Unmarshal
  cases hd : decodeStore st r with
  | error e => intro h; simp at h
  | ok d =>
    intro h
    simp only [Except.ok.injEq] at h
    exact ⟨d, rfl, h.symm⟩

theorem mergeField_zero_src {d s : Val} (h : s.isZero = true) :
    mergeField d s = d := by
  simp [mergeField, h]

theorem mergeField_nonzero_src {d s : Val} (h : s.isZero = false) :
    mergeField d s = s := by
  simp [mergeField, h]

theorem mergeField_self (v : Val) : mergeField v v = v := by
  unfold mergeField
  by_cases h : v.isZero <;> simp [h]

theorem Unmarshal_ok_length {st : Store} {r r2 : Record}
    (hok : Unmarshal st r = Except.ok r2) : r2.length = r.length := by
  obtain ⟨d, hd, rfl⟩ := Unmarshal_ok_parts hok
  rw [mergeRecords_length, decodeStore_length hd]
  exact Nat.min_self _

/-- Field-level characterization of a successful `Unmarshal`: every field
keeps its name, and its final value is the store-decoded value with the
flag-mutated snapshot value merged back on top. -/
theorem Unmarshal_field_spec {st : Store} {r r2 : Record}
    (hok : Unmarshal st r = Except.ok r2) :
    ∀ i (h1 : i < r.length) (h2 : i < r2.length),
      (r2.get ⟨i, h2⟩).fst = (r.get ⟨i, h1⟩).fst ∧
      ∃ w0, decodeStoreField (r.get ⟨i, h1⟩).snd (st (r.get ⟨i, h1⟩).fst) =
          Except.ok w0 ∧
        (r2.get ⟨i, h2⟩).snd = mergeField w0 (r.get ⟨i, h1⟩).snd := by
  obtain ⟨d, hd, rfl⟩ := Unmarshal_ok_parts hok
  intro i h1 h2
  have hd1 : i < d.length := by rw [decodeStore_length hd]; exact h1
  have hget := decodeStore_get hd i h1 hd1
  have hm := mergeRecords_get d r i hd1 h1 h2
  constructor
  · rw [hm]
    exact hget.1
  · exact ⟨(d.get ⟨i, hd1⟩).snd, hget.2, by rw [hm]⟩

/-- Decoding and merging one field is stable: re-decoding the merged value
against the same store entry succeeds and the second merge changes
nothing. -/
theorem field_idem {v w : Val} {c : Option Val}
    (h : decodeStoreField v c = Except.ok w) :
    ∃ w2, decodeStoreField (mergeField w v) c = Except.ok w2 ∧
      mergeField w2 (mergeField w v) = mergeField w v := by
  cases c with
  | none =>
    simp only [decodeStoreField] at h
    have hwv : w = v := (Except.ok.inj h).symm
    subst hwv
    exact ⟨mergeField w w, rfl, mergeField_self _⟩
  | some cw =>
    obtain ⟨hwc, hk⟩ := decodeStoreField_some_ok h
    subst hwc
    by_cases hz : v.isZero
    · have hu : mergeField w v = w := mergeField_zero_src hz
      rw [hu]
      refine ⟨w, ?_, mergeField_self w⟩
      simp [decodeStoreField]
    · have hz2 : v.isZero = false := by
        revert hz
        cases v.isZero <;> simp
      have hu : mergeField w v = v := mergeField_nonzero_src hz2
      rw [hu]
      refine ⟨w, ?_, mergeField_nonzero_src hz2⟩
      simp [decodeStoreField, hk]

/-- Running `Unmarshal` on the result of a successful `Unmarshal` succeeds
and returns it unchanged. -/
theorem Unmarshal_idem_aux (st : Store) :
    ∀ (r d : Record), decodeStore st r = Except.ok d →
      Unmarshal st (mergeRecords d r) = Except.ok (mergeRecords d r) := by
  intro r
  induction r with
  | nil =>
    intro d h
    simp only [decodeStore, Except.ok.injEq] at h
    rw [← h]
    rfl
  | cons f rest ih =>
    intro d h
    obtain ⟨w, tail, hw, ht, rfl⟩ := decodeStore_cons_ok h
    have hm : mergeRecords ((f.fst, w) :: tail) (f :: rest) =
        (f.fst, mergeField w f.snd) :: mergeRecords tail rest := rfl
    rw [hm]
    obtain ⟨w2, hw2, hmw2⟩ := field_idem hw
    obtain ⟨dm, hdm, hmm⟩ := Unmarshal_ok_parts (ih tail ht)
    unfold Unmarshal
    simp only [decodeStore, hw2, hdm]
    have hmr : mergeRecords ((f.fst, w2) :: dm)
        ((f.fst, mergeField w f.snd) :: mergeRecords tail rest) =
        (f.fst, mergeField w2 (mergeField w f.snd)) ::
          mergeRecords dm (mergeRecords tail rest) := rfl
    rw [hmr, hmw2, ← hmm]

theorem scanColl_skip {idF sel : String} {r : Record} {e : Elem}
    {rest : List Elem} (h : skipsElem idF sel e) :
    scanColl idF sel r (e :: rest) = scanColl idF sel r rest := by
  cases h with
  | inl hn => simp [scanColl, hn]
  | inr hs =>
    obtain ⟨s, hl, hne⟩ := hs
    have hb : (s == sel) = false := by
      simp only [beq_eq_false_iff_ne, ne_eq]
      exact hne
    simp [scanColl, hl, hb]

theorem scanColl_skip_front {idF sel : String} {r : Record} :
    ∀ (pre coll : List Elem), (∀ e ∈ pre, skipsElem idF sel e) →
      scanColl idF sel r (pre ++ coll) = scanColl idF sel r coll := by
  intro pre
  induction pre with
  | nil => intro coll _; rfl
  | cons e es ih =>
    intro coll h
    rw [List.cons_append, scanColl_skip (h e (List.mem_cons_self e es))]
    exact ih coll (fun e2 hm => h e2 (List.mem_cons_of_mem e hm))

theorem scanColl_match {idF sel : String} {r d : Record} {e : Elem}
    {rest : List Elem} (hid : lookupE e idF = some (Val.vstr sel))
    (hdec : decodeStore (fun k => lookupE e k) r = Except.ok d) :
    scanColl idF sel r (e :: rest) = HookOut.ok (mergeRecords d r) := by
  simp [scanColl, hid, hdec]

/-! ## Helper lemmas about the hook chain -/

theorem buildRunChain_append (regs : HookRegs) :
    ∀ (l1 l2 : List Nat),
      buildRunChain regs (l1 ++ l2) = buildRunChain regs l1 ++ buildRunChain regs l2 := by
  intro l1
  induction l1 with
  | nil => intro l2; rfl
  | cons p ps ih =>
    intro l2
    rw [List.cons_append]
    simp only [buildRunChain]
    rw [ih, List.append_assoc]

theorem dispatchHooks_eq (regs : HookRegs) :
    ∀ (path : List Nat),
      dispatchHooks regs path = (path.map (fun p => (hooksAt regs p).reverse)).flatten := by
  intro path
  induction path with
  | nil => rfl
  | cons p ps ih =>
    unfold dispatchHooks at ih ⊢
    rw [List.reverse_cons, buildRunChain_append, List.reverse_append, ih]
    simp [buildRunChain]

theorem hooksAt_mem (regs : HookRegs) (p h : Nat) :
    h ∈ hooksAt regs p ↔ (p, h) ∈ regs := by
  simp only [hooksAt, List.mem_map, List.mem_filter, beq_iff_eq]
  constructor
  · rintro ⟨rg, ⟨hmem, hfst⟩, hsnd⟩
    have hrg : rg = (p, h) := by
      cases rg
      simp only [Prod.mk.injEq]
      exact ⟨hfst, hsnd⟩
    rwa [hrg] at hmem
  · intro hmem
    exact ⟨(p, h), ⟨hmem, rfl⟩, rfl⟩

theorem hooks_disjoint {regs : HookRegs} (hids : (regs.map Prod.snd).Nodup)
    {p q h : Nat} (hp : h ∈ hooksAt regs p) (hq : h ∈ hooksAt regs q) : p = q := by
  rw [hooksAt_mem] at hp hq
  have hnd : regs.Nodup := List.Nodup.of_map Prod.snd hids
  have hpq := (List.nodup_map_iff_inj_on hnd).1 hids (p, h) hp (q, h) hq rfl
  exact congrArg Prod.fst hpq

theorem short_list_of_mem {l : List Nat} {h : Nat}
    (hlen : l.length ≤ 1) (hm : h ∈ l) : l = [h] := by
  cases l with
  | nil => exact absurd hm (List.not_mem_nil h)
  | cons a t =>
    cases t with
    | nil =>
      rw [List.mem_singleton] at hm
      rw [hm]
    | cons b t2 => simp at hlen

theorem join_of_short (regs : HookRegs) :
    ∀ (path : List Nat), (∀ p ∈ path, (hooksAt regs p).length ≤ 1) →
      (path.map (fun p => (hooksAt regs p).reverse)).flatten =
        path.filterMap (fun p => (hooksAt regs p).head?) := by
  intro path
  induction path with
  | nil => intro _; rfl
  | cons p ps ih =>
    intro h
    have hp := h p (List.mem_cons_self p ps)
    have hrest := ih (fun q hq => h q (List.mem_cons_of_mem p hq))
    cases hl : hooksAt regs p with
    | nil => simp [hl, hrest, List.filterMap_cons]
    | cons a t =>
      cases t with
      | nil => simp [hl, hrest, List.filterMap_cons]
      | cons b t2 => rw [hl] at hp; simp at hp

/-! ## Claim theorems -/

/-- C1: Precedence resolution of `Unmarshal`/`UnmarshalKey`.  For any
record and any field: a field that flag parsing left at a non-zero value V
stays at V whatever the store supplies; a field still at its zero value
becomes the store's value W when the store supplies one; a field for which
the store supplies nothing keeps the value flag parsing left (in
particular, the record's compiled-in default when no flag was given).
Flag beats config beats default. -/
theorem unmarshal_precedence (st : Store) (r r2 : Record)
    (hok : Unmarshal st r = Except.ok r2) :
    r2.length = r.length ∧
    ∀ i (h1 : i < r.length) (h2 : i < r2.length),
      ((r.get ⟨i, h1⟩).snd.isZero = false →
        (r2.get ⟨i, h2⟩).snd = (r.get ⟨i, h1⟩).snd) ∧
      (∀ w, (r.get ⟨i, h1⟩).snd.isZero = true →
        st (r.get ⟨i, h1⟩).fst = some w → (r2.get ⟨i, h2⟩).snd = w) ∧
      (st (r.get ⟨i, h1⟩).fst = none →
        (r2.get ⟨i, h2⟩).snd = (r.get ⟨i, h1⟩).snd) := by
  refine ⟨Unmarshal_ok_length hok, ?_⟩
  intro i h1 h2
  obtain ⟨_hname, w0, hw0, hval⟩ := Unmarshal_field_spec hok i h1 h2
  refine ⟨?_, ?_, ?_⟩
  · intro hz
    rw [hval]
    exact mergeField_nonzero_src hz
  · intro w hz hw
    rw [hw] at hw0
    rw [hval, mergeField_zero_src hz, (decodeStoreField_some_ok hw0).1]
  · intro hn
    rw [hn] at hw0
    simp only [decodeStoreField] at hw0
    rw [hval, ← Except.ok.inj hw0]
    exact mergeField_self _

/-- Witness for C1: a three-field record in which the first field was
flag-set to a non-zero value the store contradicts, the second field is at
its zero value with the store supplying 7, and the third field holds a
non-zero compiled-in default the store does not mention; resolution keeps
the flag value, takes 7 from the store, and keeps the default. -/
theorem unmarshal_precedence_witness :
    (([("a", Val.vstr "V"), ("b", Val.vint 7), ("c", Val.vbool true)] :
        Record).get ⟨1, by decide⟩).snd = Val.vint 7 ∧
    (([("a", Val.vstr "V"), ("b", Val.vint 7), ("c", Val.vbool true)] :
        Record).get ⟨0, by decide⟩).snd = Val.vstr "V" := by
  have h := unmarshal_precedence
    (fun k => if k == "a" then some (Val.vstr "W1")
      else if k == "b" then some (Val.vint 7) else none)
    [("a", Val.vstr "V"), ("b", Val.vint 0), ("c", Val.vbool true)]
    [("a", Val.vstr "V"), ("b", Val.vint 7), ("c", Val.vbool true)]
    (by rfl)
  exact ⟨(h.2 1 (by decide) (by decide)).2.1 (Val.vint 7) (by decide) (by rfl),
    (h.2 0 (by decide) (by decide)).1 (by decide)⟩

/-- C2: a field whose flag-parsed value is the zero value cannot hold out
against a non-zero store value: resolution replaces it by the store's
value, which differs from the zero the flag set — flag-set zero is
indistinguishable from unset. -/
theorem flag_zero_cannot_preserve (st : Store) (r r2 : Record)
    (hok : Unmarshal st r = Except.ok r2) :
    ∀ i (h1 : i < r.length) (h2 : i < r2.length) (w : Val),
      (r.get ⟨i, h1⟩).snd.isZero = true →
      st (r.get ⟨i, h1⟩).fst = some w → w.isZero = false →
      (r2.get ⟨i, h2⟩).snd = w ∧
      (r2.get ⟨i, h2⟩).snd ≠ (r.get ⟨i, h1⟩).snd := by
  intro i h1 h2 w hz hw hwnz
  obtain ⟨_hname, w0, hw0, hval⟩ := Unmarshal_field_spec hok i h1 h2
  rw [hw] at hw0
  have hfin : (r2.get ⟨i, h2⟩).snd = w := by
    rw [hval, mergeField_zero_src hz, (decodeStoreField_some_ok hw0).1]
  refine ⟨hfin, ?_⟩
  rw [hfin]
  intro heq
  rw [heq, hz] at hwnz
  exact absurd hwnz (by simp)

/-- Witness for C2: a boolean field flag-set to `false` (its zero value)
while the store supplies `true`; resolution yields `true`, losing the
flag-set zero. -/
theorem flag_zero_cannot_preserve_witness :
    (([("t", Val.vbool true)] : Record).get ⟨0, by decide⟩).snd = Val.vbool true := by
  have h := flag_zero_cannot_preserve
    (fun k => if k == "t" then some (Val.vbool true) else none)
    [("t", Val.vbool false)] [("t", Val.vbool true)] (by rfl)
  exact (h 0 (by decide) (by decide) (Val.vbool true) (by decide) (by rfl)
    (by decide)).1

/-- C3: collection selection.  When every element before `e` is passed over
(identifying key absent or a string other than the resolved selector
value), `e` carries the selector value under its identifying key, and `e`
decodes onto the record, the hook returns the decoded element with the
flag-mutated snapshot merged back, so every non-zero flag-set field of the
record overrides the element's field; the result does not depend on the
elements after `e` (they are quantified but absent from the outcome). -/
theorem collection_first_match (st : Store) (idOpt selF : String)
    (pre rest : List Elem) (e : Elem) (r d : Record)
    (hpre : ∀ e2 ∈ pre, skipsElem (resolveIdField idOpt) (getStringStore st selF) e2)
    (hid : lookupE e (resolveIdField idOpt) =
      some (Val.vstr (getStringStore st selF)))
    (hdec : decodeStore (fun k => lookupE e k) r = Except.ok d) :
    collectionHook st idOpt selF (pre ++ e :: rest) r = HookOut.ok (mergeRecords d r) ∧
    ∀ i (h1 : i < r.length) (h2 : i < (mergeRecords d r).length),
      (r.get ⟨i, h1⟩).snd.isZero = false →
      ((mergeRecords d r).get ⟨i, h2⟩).snd = (r.get ⟨i, h1⟩).snd := by
  constructor
  · unfold collectionHook
    rw [scanColl_skip_front pre (e :: rest) hpre]
    exact scanColl_match hid hdec
  · intro i h1 h2 hz
    have hd1 : i < d.length := by rw [decodeStore_length hdec]; exact h1
    rw [mergeRecords_get d r i hd1 h1 h2]
    exact mergeField_nonzero_src hz

/-- Witness for C3, on the repository's own test fixture: the selector
resolves to SecondItem, the first element is passed over, the second
element decodes onto the record, and the flag-set eighth parameter survives
the merge; the third element plays no part. -/
theorem collection_first_match_witness :
    collectionHook
      (fun k => if k == "CollectionSelectedItem" then some (Val.vstr "SecondItem") else none)
      "" "CollectionSelectedItem"
      [[("seventhParam", Val.vbool false), ("eighthParam", Val.vstr "FirstEighth"),
        ("name", Val.vstr "FirstItem")],
       [("seventhParam", Val.vbool true), ("eighthParam", Val.vstr "SecondEighth"),
        ("name", Val.vstr "SecondItem")],
       [("seventhParam", Val.vbool false), ("eighthParam", Val.vstr "ThirdEighth"),
        ("name", Val.vstr "ThirdItem")]]
      [("seventhParam", Val.vbool false), ("eighthParam", Val.vstr "SecondEighthFlag"),
       ("name", Val.vstr "")] =
    HookOut.ok [("seventhParam", Val.vbool true),
      ("eighthParam", Val.vstr "SecondEighthFlag"), ("name", Val.vstr "SecondItem")] := by
  have h := collection_first_match
    (fun k => if k == "CollectionSelectedItem" then some (Val.vstr "SecondItem") else none)
    "" "CollectionSelectedItem"
    [[("seventhParam", Val.vbool false), ("eighthParam", Val.vstr "FirstEighth"),
      ("name", Val.vstr "FirstItem")]]
    [[("seventhParam", Val.vbool false), ("eighthParam", Val.vstr "ThirdEighth"),
      ("name", Val.vstr "ThirdItem")]]
    [("seventhParam", Val.vbool true), ("eighthParam", Val.vstr "SecondEighth"),
     ("name", Val.vstr "SecondItem")]
    [("seventhParam", Val.vbool false), ("eighthParam", Val.vstr "SecondEighthFlag"),
     ("name", Val.vstr "")]
    [("seventhParam", Val.vbool true), ("eighthParam", Val.vstr "SecondEighth"),
     ("name", Val.vstr "SecondItem")]
    (by
      intro e2 hm
      rw [List.mem_singleton] at hm
      subst hm
      exact Or.inr ⟨"FirstItem", by rfl, by decide⟩)
    (by rfl) (by rfl)
  exact h.1.trans (by rfl)

/-- Counterexample to C4 as stated: a collection whose only element holds a
non-string identifying-key value.  No element's identifying key equals the
resolved selector value (the empty string), yet the hook does not return
the record unchanged without error — it panics at the `val.(string)`
assertion. -/
theorem no_match_counterexample :
    collectionHook (fun _ => none) "" "sel"
      [[("name", Val.vint 5)]] [("f", Val.vstr "flagv")] = HookOut.panicNonString ∧
    HookOut.panicNonString ≠ HookOut.ok [("f", Val.vstr "flagv")] := by
  exact ⟨rfl, by decide⟩

/-- C4 (amended): when every element of the collection is passed over — its
identifying key absent, or present as a string different from the resolved
selector value — the hook returns the target record exactly as flag parsing
left it, without error.  (An element whose identifying key holds a
non-string value panics instead; that behaviour is the subject of C10.) -/
theorem no_match_leaves_record (st : Store) (idOpt selF : String)
    (coll : List Elem) (r : Record)
    (h : ∀ e ∈ coll, skipsElem (resolveIdField idOpt) (getStringStore st selF) e) :
    collectionHook st idOpt selF coll r = HookOut.ok r := by
  unfold collectionHook
  induction coll with
  | nil => rfl
  | cons e es ih =>
    rw [scanColl_skip (h e (List.mem_cons_self e es))]
    exact ih (fun e2 hm => h e2 (List.mem_cons_of_mem e hm))

/-- Witness for C4: a two-element string-keyed collection in which neither
name equals the resolved selector value; the flag-mutated record comes back
untouched and no error is raised. -/
theorem no_match_leaves_record_witness :
    collectionHook (fun k => if k == "sel" then some (Val.vstr "Missing") else none)
      "" "sel"
      [[("name", Val.vstr "FirstItem"), ("f", Val.vstr "x")],
       [("name", Val.vstr "SecondItem"), ("f", Val.vstr "y")]]
      [("f", Val.vstr "flagv")] = HookOut.ok [("f", Val.vstr "flagv")] := by
  exact no_match_leaves_record
    (fun k => if k == "sel" then some (Val.vstr "Missing") else none) "" "sel"
    [[("name", Val.vstr "FirstItem"), ("f", Val.vstr "x")],
     [("name", Val.vstr "SecondItem"), ("f", Val.vstr "y")]]
    [("f", Val.vstr "flagv")]
    (by
      intro e hm
      rw [List.mem_cons, List.mem_singleton] at hm
      cases hm with
      | inl h1 => subst h1; exact Or.inr ⟨"FirstItem", by rfl, by decide⟩
      | inr h2 => subst h2; exact Or.inr ⟨"SecondItem", by rfl, by decide⟩)

/-- Counterexample to C5 as stated: the record's selector field was
flag-set to the non-zero value "A", but the store holds "B" for the
selector key, and the hook selects the element named "B" (its `out` field
comes through), not the element named "A".  A flag on the selector field
does not determine which element is selected. -/
theorem selector_flag_counterexample :
    collectionHook (fun k => if k == "sel" then some (Val.vstr "B") else none)
      "" "sel"
      [[("name", Val.vstr "A"), ("out", Val.vstr "fromA")],
       [("name", Val.vstr "B"), ("out", Val.vstr "fromB")]]
      [("sel", Val.vstr "A"), ("out", Val.vstr "")] =
      HookOut.ok [("sel", Val.vstr "A"), ("out", Val.vstr "fromB")] ∧
    HookOut.ok ([("sel", Val.vstr "A"), ("out", Val.vstr "fromB")] : Record) ≠
      HookOut.ok [("sel", Val.vstr "A"), ("out", Val.vstr "fromA")] := by
  exact ⟨rfl, by decide⟩

/-- C5 (amended): the selector value used for matching is read directly
from the config store by key (`GetString`), not through the single-record
resolution path: when the store holds the string `s` under the selector key
the scan uses `s`, and when the store holds nothing it uses the empty
string — in either case independently of every record's flag-mutated field
values, so flags on the selector field do not influence selection. -/
theorem selector_value_from_store (st : Store) (idOpt selF : String)
    (coll : List Elem) (r : Record) :
    (∀ s, st selF = some (Val.vstr s) →
      collectionHook st idOpt selF coll r = scanColl (resolveIdField idOpt) s r coll) ∧
    (st selF = none →
      collectionHook st idOpt selF coll r =
        scanColl (resolveIdField idOpt) "" r coll) := by
  constructor
  · intro s hs
    unfold collectionHook getStringStore
    rw [hs]
  · intro hn
    unfold collectionHook getStringStore
    rw [hn]

/-- Witness for C5 (amended): with the store holding "B" under the selector
key, the hook scans with the selector value "B". -/
theorem selector_value_from_store_witness :
    collectionHook (fun k => if k == "sel" then some (Val.vstr "B") else none)
      "" "sel" [[("name", Val.vstr "B"), ("out", Val.vstr "fromB")]]
      [("out", Val.vstr "")] =
    scanColl (resolveIdField "") "B" [("out", Val.vstr "")]
      [[("name", Val.vstr "B"), ("out", Val.vstr "fromB")]] := by
  exact (selector_value_from_store
    (fun k => if k == "sel" then some (Val.vstr "B") else none) "" "sel"
    [[("name", Val.vstr "B"), ("out", Val.vstr "fromB")]]
    [("out", Val.vstr "")]).1 "B" (by rfl)

/-- C6: hook chain ordering.  For any registration list whose hook ids are
distinct and any root-to-target command path on which each node carries at
most one registered hook ("each bound with its own record"), the dispatch
runs exactly the hooks of the bound path nodes, in root-to-leaf order,
all before the target node's own run event; on a duplicate-free path the
executed hook sequence has no repetition, and every hook registered on a
path node is executed. -/
theorem hook_chain_root_to_leaf (regs : HookRegs) (path : List Nat)
    (hids : (regs.map Prod.snd).Nodup)
    (hone : ∀ p ∈ path, (hooksAt regs p).length ≤ 1) :
    dispatchEvents regs path =
      (path.filterMap (fun p => (hooksAt regs p).head?)).map Event.hookEv ++
        [Event.runEv (path.getLastD 0)] ∧
    (path.Nodup → (dispatchHooks regs path).Nodup) ∧
    ∀ p ∈ path, ∀ h ∈ hooksAt regs p, h ∈ dispatchHooks regs path := by
  have hkey : dispatchHooks regs path =
      path.filterMap (fun p => (hooksAt regs p).head?) :=
    (dispatchHooks_eq regs path).trans (join_of_short regs path hone)
  refine ⟨?_, ?_, ?_⟩
  · unfold dispatchEvents
    rw [hkey]
  · intro hnd
    rw [hkey]
    refine List.Nodup.filterMap ?_ hnd
    intro a a2 b hb hb2
    have h1 : b ∈ hooksAt regs a := by
      cases hl : hooksAt regs a with
      | nil => rw [hl] at hb; exact absurd hb (by simp)
      | cons x t =>
        rw [hl] at hb
        have hx : x = b := by
          have : some x = some b := hb
          exact Option.some.inj this
        rw [hx]
        exact List.mem_cons_self b t
    have h2 : b ∈ hooksAt regs a2 := by
      cases hl : hooksAt regs a2 with
      | nil => rw [hl] at hb2; exact absurd hb2 (by simp)
      | cons x t =>
        rw [hl] at hb2
        have hx : x = b := by
          have : some x = some b := hb2
          exact Option.some.inj this
        rw [hx]
        exact List.mem_cons_self b t
    exact hooks_disjoint hids h1 h2
  · intro p hp h hh
    rw [hkey, List.mem_filterMap]
    refine ⟨p, hp, ?_⟩
    rw [short_list_of_mem (hone p hp) hh]
    rfl

/-- Witness for C6: three commands root 1 → mid 2 → leaf 3 with hooks 10,
20, 30; dispatching to the leaf emits hook 10, hook 20, hook 30, then the
leaf's run, in that order. -/
theorem hook_chain_root_to_leaf_witness :
    dispatchEvents [(1, 10), (2, 20), (3, 30)] [1, 2, 3] =
      [Event.hookEv 10, Event.hookEv 20, Event.hookEv 30, Event.runEv 3] := by
  have h := hook_chain_root_to_leaf [(1, 10), (2, 20), (3, 30)] [1, 2, 3]
    (by decide) (by decide)
  exact h.1.trans (by rfl)

/-- C7: the help wrapper installed by `bindCFlagsPersistent` calls the
command's plain `PersistentPreRun` field, which this package never assigns
(registration sets only `PersistentPreRunE`), so requesting help on a bound
command calls a nil function value and panics; the registered resolution
hook (present in the registration list) is not run before help text. -/
theorem help_on_bound_cmd_panics :
    invokeHelp (bindCFlagsPersistent freshCmd 7) = HelpOutcome.panicNilFuncCall ∧
    (bindCFlagsPersistent freshCmd 7).persistentPreRunEHooks = [7] ∧
    invokeHelp (bindCFlagsPersistent freshCmd 7) ≠ HelpOutcome.helpTextOnly := by
  exact ⟨rfl, rfl, by decide⟩

/-- C8: resolution idempotence.  Running the node's resolution
(config decode + precedence merge; the flag-default refresh only rewrites
flag metadata, not record fields) a second time on the record it produced
succeeds and yields exactly the same field values. -/
theorem resolution_idempotent (st : Store) (r r1 : Record)
    (h : Unmarshal st r = Except.ok r1) : Unmarshal st r1 = Except.ok r1 := by
  obtain ⟨d, hd, rfl⟩ := Unmarshal_ok_parts h
  exact Unmarshal_idem_aux st r d hd

/-- Witness for C8: resolving a record with a flag-set field and a
config-supplied field twice gives the once-resolved result again. -/
theorem resolution_idempotent_witness :
    Unmarshal (fun k => if k == "a" then some (Val.vstr "Cfg") else none)
      [("a", Val.vstr "Cfg"), ("b", Val.vint 3)] =
      Except.ok [("a", Val.vstr "Cfg"), ("b", Val.vint 3)] := by
  exact resolution_idempotent
    (fun k => if k == "a" then some (Val.vstr "Cfg") else none)
    [("a", Val.vstr ""), ("b", Val.vint 3)]
    [("a", Val.vstr "Cfg"), ("b", Val.vint 3)] (by rfl)

/-- C9: config loading is process-wide exactly-once.  Any non-empty
sequence of public calls (Get, GetInt, GetString, ReadInConfig, Unmarshal,
UnmarshalKey) leaves the once-cell triggered with the loader's actions —
executable-name discovery, search-path registration, environment
auto-binding, config-file read — performed exactly once; and once the cell
is triggered every further public call leaves the state untouched. -/
theorem load_config_exactly_once (ops : List PublicOp) (hne : ops ≠ []) :
    runOps freshOnce ops = { didRun := true, log := configLoaderActions } ∧
    ∀ (s : OnceState), s.didRun = true → ∀ op, opLoaderEffect op s = s := by
  have heffect : ∀ op s, opLoaderEffect op s = loadConfig s := by
    intro op s
    cases op <;> rfl
  have hdone : ∀ (s : OnceState), s.didRun = true → loadConfig s = s := by
    intro s hs
    simp [loadConfig, hs]
  have hruns : ∀ (l : List PublicOp) (s : OnceState), s.didRun = true →
      runOps s l = s := by
    intro l
    induction l with
    | nil => intro s _; rfl
    | cons op rest ih =>
      intro s hs
      show runOps (opLoaderEffect op s) rest = s
      rw [heffect, hdone s hs]
      exact ih s hs
  refine ⟨?_, fun s hs op => (heffect op s).trans (hdone s hs)⟩
  cases ops with
  | nil => exact absurd rfl hne
  | cons op rest =>
    show runOps (opLoaderEffect op freshOnce) rest = _
    rw [heffect]
    have hfirst : loadConfig freshOnce =
        { didRun := true, log := configLoaderActions } := by
      simp [loadConfig, freshOnce]
    rw [hfirst]
    exact hruns rest _ rfl

/-- Witness for C9: three public calls in a row — Get, Unmarshal,
GetString — trigger the loader once and leave the log with one copy of its
actions. -/
theorem load_config_exactly_once_witness :
    runOps freshOnce [PublicOp.get, PublicOp.unmarshal, PublicOp.getString] =
      { didRun := true, log := configLoaderActions } := by
  exact (load_config_exactly_once
    [PublicOp.get, PublicOp.unmarshal, PublicOp.getString] (by decide)).1

/-- C10: a collection whose first element holds a non-string value under
the identifying key makes the hook panic at the unchecked `val.(string)`
assertion while scanning, even though a later element matches the resolved
selector value; it neither skips the element, nor converts the value, nor
returns a decode error. -/
theorem nonstring_id_value_panics :
    collectionHook (fun k => if k == "sel" then some (Val.vstr "x") else none)
      "" "sel"
      [[("name", Val.vint 1)],
       [("name", Val.vstr "x"), ("f", Val.vstr "fromMatch")]]
      [("f", Val.vstr "")] = HookOut.panicNonString := by
  rfl

end Cfg
